import Mathlib

/-!
Verification of the CESU-8 codec in `src/lib.rs` (crate `cesu8`).

Byte strings are modelled as `List Nat` (every element a value `< 256` in
practice), Unicode text as a `List Nat` of scalar values, and the crate's
`Cow<[u8]>` / `Cow<str>` results as a two-constructor `Cow` type.  Fallible
decoding returns `Option`.  All definitions are translated from the source;
the single exception, marked `Modelled from the spec`, is the byte
classifier, whose module (`mod unicode`) is not among the provided files.
-/

set_option maxRecDepth 100000

/-- Mask of the value bits of a continuation byte (`CONT_MASK`, src/lib.rs:100). -/
def CONT_MASK : Nat := 0x3F

/-- Value of the tag bits of a continuation byte (`TAG_CONT_U8`, src/lib.rs:102). -/
def TAG_CONT_U8 : Nat := 0x80

/-- Modelled from the spec: the byte classifier `utf8_char_width` lives in the
repository's `mod unicode` (src/lib.rs:95-97), whose file is not among the
provided sources.  Spec 4.1: the total sequence length is read off the high
bits of the leading byte (`0xxxxxxx` gives 1, `110xxxxx` gives 2, `1110xxxx`
gives 3, `11110xxx` gives 4); continuation bytes and other invalid leading
bytes are not valid sequence starts, and spec 4.3 sends "any other width" to
the failure arm, so those bytes are classified 0 here. -/
def utf8_char_width (b : Nat) : Nat :=
  if b < 0x80 then 1
  else if b < 0xC0 then 0
  else if b < 0xE0 then 2
  else if b < 0xF0 then 3
  else if b < 0xF8 then 4
  else 0

/-- Continuation-byte test `(byte & !CONT_MASK) == TAG_CONT_U8` used throughout
src/lib.rs (lines 196, 328); on `u8`, `!CONT_MASK` is `0xFF - CONT_MASK = 0xC0`. -/
def isCont (b : Nat) : Bool := b &&& (0xFF - CONT_MASK) == TAG_CONT_U8

/-- A Unicode scalar value: in range and not a surrogate (spec 3, data model).
Rust's `char` / `&str` guarantee exactly this for every character. -/
def ValidScalar (c : Nat) : Prop := c < 0x110000 ∧ ¬(0xD800 ≤ c ∧ c ≤ 0xDFFF)

instance (c : Nat) : Decidable (ValidScalar c) := by unfold ValidScalar; infer_instance

/-- Standard UTF-8 encoding of one scalar value; models what `str::as_bytes`
yields for a single character of a Rust string. -/
def utf8EncodeChar (c : Nat) : List Nat :=
  if c < 0x80 then [c]
  else if c < 0x800 then [0xC0 + c / 0x40, 0x80 + c % 0x40]
  else if c < 0x10000 then [0xE0 + c / 0x1000, 0x80 + c / 0x40 % 0x40, 0x80 + c % 0x40]
  else [0xF0 + c / 0x40000, 0x80 + c / 0x1000 % 0x40, 0x80 + c / 0x40 % 0x40, 0x80 + c % 0x40]

/-- The byte string backing a Rust string with the given scalar values:
models `text.as_bytes()` (src/lib.rs:290, 292). -/
def utf8Encode : List Nat → List Nat
  | [] => []
  | c :: t => utf8EncodeChar c ++ utf8Encode t

/-- The valid non-surrogate 3-byte leading/second-byte buckets, exactly the
pass-through arms of the `match (first, second)` in `decode_from_iter`
(src/lib.rs:222-225); these coincide with the well-formed 3-byte table of
standard UTF-8. -/
def threeByteValid (first second : Nat) : Bool :=
  (first == 0xE0 && decide (0xA0 ≤ second) && decide (second ≤ 0xBF)) ||
  (decide (0xE1 ≤ first) && decide (first ≤ 0xEC) && decide (0x80 ≤ second) && decide (second ≤ 0xBF)) ||
  (first == 0xED && decide (0x80 ≤ second) && decide (second ≤ 0x9F)) ||
  (decide (0xEE ≤ first) && decide (first ≤ 0xEF) && decide (0x80 ≤ second) && decide (second ≤ 0xBF))

/-- The well-formed 4-byte leading/second-byte buckets of standard UTF-8
(leading `0xF0` with second `0x90..0xBF`, `0xF1..0xF3` with `0x80..0xBF`,
`0xF4` with `0x80..0x8F`). -/
def fourByteValid (first second : Nat) : Bool :=
  (first == 0xF0 && decide (0x90 ≤ second) && decide (second ≤ 0xBF)) ||
  (decide (0xF1 ≤ first) && decide (first ≤ 0xF3) && decide (0x80 ≤ second) && decide (second ≤ 0xBF)) ||
  (first == 0xF4 && decide (0x80 ≤ second) && decide (second ≤ 0x8F))

/-- Standard UTF-8 validity of a byte string; models `std::str::from_utf8`
succeeding (src/lib.rs:138), including the rejection of overlong forms and of
encoded surrogates. -/
def utf8Valid : List Nat → Bool
  | [] => true
  | b :: rest =>
    if b < 0x80 then utf8Valid rest
    else
      match rest with
      | [] => false
      | c :: rest2 =>
        if decide (0xC2 ≤ b) && decide (b ≤ 0xDF) then
          isCont c && utf8Valid rest2
        else
          match rest2 with
          | [] => false
          | d :: rest3 =>
            if decide (0xE0 ≤ b) && decide (b ≤ 0xEF) then
              threeByteValid b c && isCont d && utf8Valid rest3
            else
              match rest3 with
              | [] => false
              | e :: rest4 =>
                fourByteValid b c && isCont d && isCont e && utf8Valid rest4

/-- A conversion result: either a borrowed (zero-copy) view of the input
bytes or a freshly allocated owned buffer, modelling `Cow` (spec 3). -/
inductive Cow where
  | borrowed (bytes : List Nat)
  | owned (bytes : List Nat)
  deriving DecidableEq

/-- The byte content of a conversion result, whichever variant it is. -/
def cowBytes : Cow → List Nat
  | .borrowed b => b
  | .owned b => b

/-- Convert the two trailing bytes of a CESU-8 surrogate sequence to the
surrogate value (`dec_surrogate`, src/lib.rs:249-251). -/
def dec_surrogate (second third : Nat) : Nat :=
  0xD000 ||| ((second &&& CONT_MASK) <<< 6) ||| (third &&& CONT_MASK)

/-- The code point reassembled from the two surrogate halves inside
`dec_surrogates` (src/lib.rs:257-259): `0x10000 + (((s1 - 0xD800) << 10) | (s2 - 0xDC00))`.
The source asserts `0x10000 <= c && c <= 0x10FFFF` about this value
(src/lib.rs:263). -/
def dec_surrogates_codepoint (second third fifth sixth : Nat) : Nat :=
  0x10000 + (((dec_surrogate second third - 0xD800) <<< 10) ||| (dec_surrogate fifth sixth - 0xDC00))

/-- The 4-byte UTF-8 sequence emitted for a reassembled surrogate pair
(`dec_surrogates`, src/lib.rs:255-271). -/
def dec_surrogates (second third fifth sixth : Nat) : List Nat :=
  [0xF0 ||| ((dec_surrogates_codepoint second third fifth sixth &&& 0x1C0000) >>> 18),
   TAG_CONT_U8 ||| ((dec_surrogates_codepoint second third fifth sixth &&& 0x3F000) >>> 12),
   TAG_CONT_U8 ||| ((dec_surrogates_codepoint second third fifth sixth &&& 0xFC0) >>> 6),
   TAG_CONT_U8 ||| (dec_surrogates_codepoint second third fifth sixth &&& 0x3F)]

/-- The decode state machine `decode_from_iter` (src/lib.rs:179-245), with the
iterator made an explicit list and `err!()` made `none`; the source's
`match w` over the width is written as an if-chain whose final arm is the
catch-all failure (src/lib.rs:241).  Note the ASCII fast arm tests
`first < 127` exactly as the source does (src/lib.rs:209), so the byte `0x7F`
falls through to the width dispatch, where width 1 hits the failure arm. -/
def decodeLoop : List Nat → Option (List Nat)
  | [] => some []
  | first :: rest =>
    if first < 127 then
      (decodeLoop rest).map (fun d => first :: d)
    else if utf8_char_width first = 2 then
      match rest with
      | [] => none
      | second :: rest2 =>
        if isCont second then (decodeLoop rest2).map (fun d => first :: second :: d) else none
    else if utf8_char_width first = 3 then
      match rest with
      | [] => none
      | second :: rest2 =>
        match rest2 with
        | [] => none
        | third :: rest3 =>
          if isCont second && isCont third then
            if threeByteValid first second then
              (decodeLoop rest3).map (fun d => first :: second :: third :: d)
            else if first == 0xED && decide (0xA0 ≤ second) && decide (second ≤ 0xAF) then
              match rest3 with
              | [] => none
              | fourth :: rest4a =>
                match rest4a with
                | [] => none
                | fifth :: rest4b =>
                  match rest4b with
                  | [] => none
                  | sixth :: rest4 =>
                    if fourth == 0xED && isCont fifth && decide (0xB0 ≤ fifth) && decide (fifth ≤ 0xBF) && isCont sixth then
                      (decodeLoop rest4).map (fun d => dec_surrogates second third fifth sixth ++ d)
                    else none
            else none
          else none
    else none

/-- `from_cesu8` (src/lib.rs:137-151): the UTF-8 fast path returns the input
borrowed; otherwise the decode loop either yields an owned buffer or the
single error value (`none`). -/
def from_cesu8 (bytes : List Nat) : Option Cow :=
  if utf8Valid bytes then some (.borrowed bytes)
  else
    match decodeLoop bytes with
    | some decoded => some (.owned decoded)
    | none => none

/-- `is_valid_cesu8` (src/lib.rs:324-332): skip continuation bytes, reject as
soon as a leading byte classifies wider than 3. -/
def is_valid_cesu8 : List Nat → Bool
  | [] => true
  | b :: rest =>
    if isCont b then is_valid_cesu8 rest
    else if utf8_char_width b > 3 then false
    else is_valid_cesu8 rest

/-- Encode one UTF-16 surrogate as a 3-byte CESU-8 sequence (`enc_surrogate`,
src/lib.rs:335-341). -/
def enc_surrogate (surrogate : Nat) : List Nat :=
  [0xE0 ||| ((surrogate &&& 0xF000) >>> 12),
   TAG_CONT_U8 ||| ((surrogate &&& 0x0FC0) >>> 6),
   TAG_CONT_U8 ||| (surrogate &&& 0x3F)]

/-- The scalar value of a well-formed 4-byte UTF-8 sequence; models the
character obtained through `from_utf8_unchecked` on `bytes[i..i+4]`
(src/lib.rs:311). -/
def utf8DecodeFourBytes (b1 b2 b3 b4 : Nat) : Nat :=
  ((b1 &&& 0x07) <<< 18) ||| ((b2 &&& CONT_MASK) <<< 12) |||
  ((b3 &&& CONT_MASK) <<< 6) ||| (b4 &&& CONT_MASK)

/-- First UTF-16 code unit of a supplementary code point, as yielded by
`s.utf16_units()` (src/lib.rs:312). -/
def utf16HighSurrogate (c : Nat) : Nat := 0xD800 + (c - 0x10000) / 0x400

/-- Second UTF-16 code unit of a supplementary code point, as yielded by
`s.utf16_units()` (src/lib.rs:312). -/
def utf16LowSurrogate (c : Nat) : Nat := 0xDC00 + (c - 0x10000) % 0x400

/-- The re-encoding pass of `to_cesu8` (src/lib.rs:294-318).  The source walks
`bytes` by index, advancing `w = utf8_char_width(b)` each step; here the
consumed bytes are exposed as list patterns.  On the valid UTF-8 input
`to_cesu8` guarantees, a non-ASCII sequence start always classifies as width
2, 3 or 4 with the full sequence present (the source asserts `w <= 4` and
`i + w <= bytes.len()`); the catch-all arm is unreachable there. -/
def encodeLoop : List Nat → List Nat
  | [] => []
  | b :: rest =>
    if b < 128 then b :: encodeLoop rest
    else
      match utf8_char_width b, rest with
      | 2, c :: rest2 => b :: c :: encodeLoop rest2
      | 3, c :: d :: rest3 => b :: c :: d :: encodeLoop rest3
      | 4, c :: d :: e :: rest4 =>
        enc_surrogate (utf16HighSurrogate (utf8DecodeFourBytes b c d e)) ++
        enc_surrogate (utf16LowSurrogate (utf8DecodeFourBytes b c d e)) ++
        encodeLoop rest4
      | _, _ => []

/-- The capacity argument passed to `Vec::with_capacity` on the re-encoding
path of `to_cesu8` (src/lib.rs:293).  The source text is
`bytes.len() + bytes.len() >> 2`; Rust parses `+` tighter than `>>`, so the
value is `(len + len) >> 2`. -/
def to_cesu8_capacity (len : Nat) : Nat := (len + len) >>> 2

/-- `to_cesu8` (src/lib.rs:288-321) on the scalar values of a Rust string:
borrowed when the validator reports no 4-byte sequence, otherwise the
re-encoding pass over the string's bytes. -/
def to_cesu8 (text : List Nat) : Cow :=
  if is_valid_cesu8 (utf8Encode text) then .borrowed (utf8Encode text)
  else .owned (encodeLoop (utf8Encode text))

/-- Modelled from the spec: valid CESU-8 per spec 3 and claim C2, "a
concatenation of well-formed 1-to-3-byte UTF-8 scalar sequences and
well-formed high/low surrogate sequence pairs".  The unit kind is determined
by the leading byte (and, for `0xED`, the second byte), so the greedy scan
decides the property. -/
def specValidCesu8 : List Nat → Bool
  | [] => true
  | b :: rest =>
    if b < 0x80 then specValidCesu8 rest
    else
      match rest with
      | [] => false
      | c :: rest2 =>
        if decide (0xC2 ≤ b) && decide (b ≤ 0xDF) && isCont c then specValidCesu8 rest2
        else
          match rest2 with
          | [] => false
          | d :: rest3 =>
            if threeByteValid b c && isCont d then specValidCesu8 rest3
            else if b == 0xED && decide (0xA0 ≤ c) && decide (c ≤ 0xAF) && isCont d then
              match rest3 with
              | e :: f :: g :: rest4 =>
                if e == 0xED && decide (0xB0 ≤ f) && decide (f ≤ 0xBF) && isCont g then
                  specValidCesu8 rest4
                else false
              | _ => false
            else false

/-- One CESU-8 unit: a 1-byte scalar sequence, a well-formed 2-byte or
non-surrogate 3-byte UTF-8 sequence, or a full high/low surrogate sequence
pair (6 bytes).  Valid CESU-8 data is exactly a concatenation of such units. -/
def isUnit (u : List Nat) : Bool :=
  match u with
  | [b] => decide (b < 0x80)
  | [b, c] => decide (0xC2 ≤ b) && decide (b ≤ 0xDF) && isCont c
  | [a, b, c] => threeByteValid a b && isCont b && isCont c
  | [a, b, c, d, e, f] =>
    a == 0xED && decide (0xA0 ≤ b) && decide (b ≤ 0xAF) && isCont c &&
    d == 0xED && decide (0xB0 ≤ e) && decide (e ≤ 0xBF) && isCont f
  | _ => false

/-- Concatenation of a list of units into one byte string. -/
def joinUnits : List (List Nat) → List Nat
  | [] => []
  | u :: us => u ++ joinUnits us

/-- Whether a byte string starts with a well-formed second-half surrogate
sequence: leading byte `0xED`, second byte in `0xB0..0xBF`, third byte a
valid continuation byte (spec 4.3). -/
def secondHalfOk : List Nat → Bool
  | f :: g :: x :: _ => f == 0xED && decide (0xB0 ≤ g) && decide (g ≤ 0xBF) && isCont x
  | _ => false

/-! ### Byte-range helper facts -/

theorem isCont_true_of_range {b : Nat} (h1 : 0x80 ≤ b) (h2 : b ≤ 0xBF) : isCont b = true := by
  have H : ∀ x, x < 0xC0 → 0x80 ≤ x → isCont x = true := by decide
  exact H b (by omega) h1

theorem isCont_false_of_lt {b : Nat} (h : b < 0x80) : isCont b = false := by
  have H : ∀ x, x < 0x80 → isCont x = false := by decide
  exact H b h

theorem isCont_false_of_ge {b : Nat} (h1 : 0xC0 ≤ b) (h2 : b ≤ 0xFF) : isCont b = false := by
  have H : ∀ x, x < 0x100 → 0xC0 ≤ x → isCont x = false := by decide
  exact H b (by omega) h1

theorem width_eq_one {b : Nat} (h : b < 0x80) : utf8_char_width b = 1 := by
  unfold utf8_char_width; split_ifs <;> omega

theorem width_eq_two {b : Nat} (h1 : 0xC0 ≤ b) (h2 : b < 0xE0) : utf8_char_width b = 2 := by
  unfold utf8_char_width; split_ifs <;> omega

theorem width_eq_three {b : Nat} (h1 : 0xE0 ≤ b) (h2 : b < 0xF0) : utf8_char_width b = 3 := by
  unfold utf8_char_width; split_ifs <;> omega

theorem width_eq_four {b : Nat} (h1 : 0xF0 ≤ b) (h2 : b < 0xF8) : utf8_char_width b = 4 := by
  unfold utf8_char_width; split_ifs <;> omega

theorem threeByteValid_surrogate_start {s : Nat} (h1 : 0xA0 ≤ s) (h2 : s ≤ 0xAF) :
    threeByteValid 0xED s = false := by
  have H : ∀ x, x < 0xB0 → 0xA0 ≤ x → threeByteValid 0xED x = false := by decide
  exact H s (by omega) h1

theorem threeByteValid_bounds {a b : Nat} (h : threeByteValid a b = true) :
    0xE0 ≤ a ∧ a ≤ 0xEF ∧ 0x80 ≤ b ∧ b ≤ 0xBF := by
  simp only [threeByteValid, Bool.or_eq_true, Bool.and_eq_true, decide_eq_true_eq,
    beq_iff_eq] at h
  rcases h with ((h | h) | h) | h <;> exact ⟨by omega, by omega, by omega, by omega⟩

/-! ### Surrogate arithmetic bounds -/

theorem dec_surrogate_hi_range {a b : Nat} (h1 : 0xA0 ≤ a) (h2 : a ≤ 0xAF) :
    0xD800 ≤ dec_surrogate a b ∧ dec_surrogate a b ≤ 0xDBFF := by
  have hb : b &&& CONT_MASK ≤ 0x3F := Nat.and_le_right
  have H : ∀ x, x < 0xB0 → ∀ y, y < 0x40 → 0xA0 ≤ x →
      0xD800 ≤ 0xD000 ||| ((x &&& CONT_MASK) <<< 6) ||| y ∧
        0xD000 ||| ((x &&& CONT_MASK) <<< 6) ||| y ≤ 0xDBFF := by decide
  exact H a (by omega) (b &&& CONT_MASK) (by omega) h1

theorem dec_surrogate_lo_range {a b : Nat} (h1 : 0xB0 ≤ a) (h2 : a ≤ 0xBF) :
    0xDC00 ≤ dec_surrogate a b ∧ dec_surrogate a b ≤ 0xDFFF := by
  have hb : b &&& CONT_MASK ≤ 0x3F := Nat.and_le_right
  have H : ∀ x, x < 0xC0 → ∀ y, y < 0x40 → 0xB0 ≤ x →
      0xDC00 ≤ 0xD000 ||| ((x &&& CONT_MASK) <<< 6) ||| y ∧
        0xD000 ||| ((x &&& CONT_MASK) <<< 6) ||| y ≤ 0xDFFF := by decide
  exact H a (by omega) (b &&& CONT_MASK) (by omega) h1

/-- Claim C9: whenever the decoder reaches `dec_surrogates` (second byte in
0xA0..0xAF, fifth byte in 0xB0..0xBF, third and sixth bytes valid
continuation bytes), the reassembled code point
`c = 0x10000 + (((s1 - 0xD800) << 10) | (s2 - 0xDC00))` satisfies
`0x10000 <= c <= 0x10FFFF`, so the defensive assertion at src/lib.rs:263
cannot fail on any input reachable through `from_cesu8`. -/
theorem dec_surrogates_codepoint_in_range (second third fifth sixth : Nat)
    (h1 : 0xA0 ≤ second) (h2 : second ≤ 0xAF) (h3 : isCont third = true)
    (h4 : 0xB0 ≤ fifth) (h5 : fifth ≤ 0xBF) (h6 : isCont sixth = true) :
    0x10000 ≤ dec_surrogates_codepoint second third fifth sixth ∧
      dec_surrogates_codepoint second third fifth sixth ≤ 0x10FFFF := by
  obtain ⟨ha1, ha2⟩ := dec_surrogate_hi_range (b := third) h1 h2
  obtain ⟨hb1, hb2⟩ := dec_surrogate_lo_range (b := sixth) h4 h5
  unfold dec_surrogates_codepoint
  refine ⟨Nat.le_add_right _ _, ?_⟩
  have h10 : (2 : Nat) ^ 10 = 1024 := by norm_num
  have h20 : (2 : Nat) ^ 20 = 0x100000 := by norm_num
  have hx : (dec_surrogate second third - 0xD800) <<< 10 < 2 ^ 20 := by
    rw [Nat.shiftLeft_eq, h10, h20]; omega
  have hy : dec_surrogate fifth sixth - 0xDC00 < 2 ^ 20 := by
    rw [h20]; omega
  have hor := Nat.or_lt_two_pow hx hy
  rw [h20] at hor
  omega

/-- Witness for claim C9 at the pair of surrogate sequences
`[0xED, 0xA0, 0x80]`, `[0xED, 0xB0, 0x80]`, which reassemble to U+10000. -/
theorem dec_surrogates_codepoint_in_range_w :
    0x10000 ≤ dec_surrogates_codepoint 0xA0 0x80 0xB0 0x80 ∧
      dec_surrogates_codepoint 0xA0 0x80 0xB0 0x80 ≤ 0x10FFFF :=
  dec_surrogates_codepoint_in_range 0xA0 0x80 0xB0 0x80 (by decide) (by decide)
    (by decide) (by decide) (by decide) (by decide)

/-! ### The `0x7F` failure of the slow decode path -/

/-- At any sequence start, the byte `0x7F` makes the slow decode path fail:
it is not `< 127`, classifies as width 1, and the width dispatch has no arm
for width 1. -/
theorem decodeLoop_127_cons (r : List Nat) : decodeLoop (0x7F :: r) = none := by
  rw [decodeLoop.eq_def]
  norm_num [utf8_char_width]

/-- Claim C10: there is a byte sequence that is valid CESU-8 but rejected by
`from_cesu8`.  The byte `0x7F` at any sequence-start position of the slow
decode path forces failure, and concretely
`[0x7F, 0xED, 0xA0, 0x81, 0xED, 0xB0, 0x81]` (U+007F followed by the
surrogate pair for U+10401) is valid CESU-8, is not valid UTF-8, and is
rejected. -/
theorem from_cesu8_rejects_7F :
    (∀ rest, decodeLoop (0x7F :: rest) = none) ∧
      specValidCesu8 [0x7F, 0xED, 0xA0, 0x81, 0xED, 0xB0, 0x81] = true ∧
      utf8Valid [0x7F, 0xED, 0xA0, 0x81, 0xED, 0xB0, 0x81] = false ∧
      from_cesu8 [0x7F, 0xED, 0xA0, 0x81, 0xED, 0xB0, 0x81] = none :=
  ⟨decodeLoop_127_cons, by decide, by decide, by decide⟩

/-- Claim C1 fails on the code: the valid Unicode string with scalar values
U+007F, U+10401 encodes (via the owned path) to
`[0x7F, 0xED, 0xA0, 0x81, 0xED, 0xB0, 0x81]`, and `from_cesu8` rejects those
bytes, so `from_cesu8 (to_cesu8 t)` errors instead of returning `t`. -/
theorem roundtrip_fails_on_7F :
    to_cesu8 [0x7F, 0x10401] = Cow.owned [0x7F, 0xED, 0xA0, 0x81, 0xED, 0xB0, 0x81] ∧
      from_cesu8 (cowBytes (to_cesu8 [0x7F, 0x10401])) = none := by decide

/-- Claim C2 fails on the code: `[0x7F, 0xED, 0xA0, 0x81, 0xED, 0xB0, 0x81]`
is valid CESU-8 (it is not valid UTF-8, but is a 1-byte scalar sequence
followed by a well-formed surrogate sequence pair), yet `from_cesu8` returns
an error on it. -/
theorem from_cesu8_errors_on_valid_cesu8 :
    specValidCesu8 [0x7F, 0xED, 0xA0, 0x81, 0xED, 0xB0, 0x81] = true ∧
      utf8Valid [0x7F, 0xED, 0xA0, 0x81, 0xED, 0xB0, 0x81] = false ∧
      from_cesu8 [0x7F, 0xED, 0xA0, 0x81, 0xED, 0xB0, 0x81] = none := by decide

/-- Claim C5 as stated is false: the bytes produced for the one-character
string U+10437 are not `[0xED, 0xA0, 0x81, 0xED, 0xB0, 0x97]`; the final
byte is `0xB7` (`0x80 | (0xDC37 & 0x3F)`), not `0x97`. -/
theorem to_cesu8_10437_ne_spec_bytes :
    cowBytes (to_cesu8 [0x10437]) ≠ [0xED, 0xA0, 0x81, 0xED, 0xB0, 0x97] := by decide

/-- Claim C5 amended: `to_cesu8` on the one-character string U+10437 returns
exactly the 6 owned bytes `[0xED, 0xA0, 0x81, 0xED, 0xB0, 0xB7]`, the CESU-8
encoding of the surrogate pair (0xD801, 0xDC37). -/
theorem to_cesu8_10437_bytes :
    to_cesu8 [0x10437] = Cow.owned [0xED, 0xA0, 0x81, 0xED, 0xB0, 0xB7] ∧
      enc_surrogate 0xD801 = [0xED, 0xA0, 0x81] ∧
      enc_surrogate 0xDC37 = [0xED, 0xB0, 0xB7] := by decide

/-- Claim C6 fails on the code: on the re-encoding path for the 4-byte input
(e.g. the string U+10437), the capacity passed to `Vec::with_capacity` is
`(4 + 4) >> 2 = 2`, which is less than `4 + 4/4 = 5`: the source's
`bytes.len() + bytes.len() >> 2` parses as `(len + len) >> 2 = len / 2`, not
as the intended `len + len/4`. -/
theorem to_cesu8_capacity_lt_of_pos {len : Nat} (h : 1 ≤ len) :
    to_cesu8_capacity len < len + len / 4 := by
  unfold to_cesu8_capacity
  rw [Nat.shiftRight_eq_div_pow]
  have h4 : (2 : Nat) ^ 2 = 4 := by norm_num
  rw [h4]
  omega

theorem to_cesu8_capacity_below_heuristic :
    to_cesu8_capacity 4 = 2 ∧ ¬ (4 + 4 / 4 ≤ to_cesu8_capacity 4) ∧
      to_cesu8_capacity 8 < 8 + 8 / 4 := by decide

/-- Claim C3: `is_valid_cesu8` is true on a string's bytes exactly when
`to_cesu8` takes the borrowed path returning those very bytes, and when it is
false `to_cesu8` returns the owned, freshly encoded buffer. -/
theorem is_valid_cesu8_iff_borrowed (t : List Nat) :
    (is_valid_cesu8 (utf8Encode t) = true ↔ to_cesu8 t = Cow.borrowed (utf8Encode t)) ∧
      (is_valid_cesu8 (utf8Encode t) = false →
        to_cesu8 t = Cow.owned (encodeLoop (utf8Encode t))) := by
  unfold to_cesu8
  by_cases h : is_valid_cesu8 (utf8Encode t) = true
  · simp [h]
  · have hf : is_valid_cesu8 (utf8Encode t) = false := by
      revert h; cases is_valid_cesu8 (utf8Encode t) <;> simp
    simp [hf]

/-- Witness for claim C3 at the one-character string U+10437, which is not
CESU-8-safe, so the owned branch applies. -/
theorem is_valid_cesu8_iff_borrowed_w :
    to_cesu8 [0x10437] = Cow.owned (encodeLoop (utf8Encode [0x10437])) :=
  (is_valid_cesu8_iff_borrowed [0x10437]).2 (by decide)

/-! ### The validator on encoded strings (claim C4) -/

theorem is_valid_cesu8_append (l1 l2 : List Nat) :
    is_valid_cesu8 (l1 ++ l2) = (is_valid_cesu8 l1 && is_valid_cesu8 l2) := by
  induction l1 with
  | nil => simp [is_valid_cesu8]
  | cons b l1 ih =>
    simp only [List.cons_append, is_valid_cesu8]
    split_ifs <;> simp [ih]

theorem is_valid_cesu8_char_low {c : Nat} (h : c < 0x10000) :
    is_valid_cesu8 (utf8EncodeChar c) = true := by
  unfold utf8EncodeChar
  split_ifs with h1 h2
  · have hc : isCont c = false := isCont_false_of_lt h1
    have hw : ¬ utf8_char_width c > 3 := by rw [width_eq_one h1]; omega
    simp [is_valid_cesu8, hc, hw]
  · have hb1 : isCont (0xC0 + c / 0x40) = false := isCont_false_of_ge (by omega) (by omega)
    have hw : ¬ utf8_char_width (0xC0 + c / 0x40) > 3 := by
      rw [width_eq_two (by omega) (by omega)]; omega
    have hb2 : isCont (0x80 + c % 0x40) = true := isCont_true_of_range (by omega) (by omega)
    simp [is_valid_cesu8, hb1, hw, hb2]
  · have hb1 : isCont (0xE0 + c / 0x1000) = false := isCont_false_of_ge (by omega) (by omega)
    have hw : ¬ utf8_char_width (0xE0 + c / 0x1000) > 3 := by
      rw [width_eq_three (by omega) (by omega)]; omega
    have hb2 : isCont (0x80 + c / 0x40 % 0x40) = true := isCont_true_of_range (by omega) (by omega)
    have hb3 : isCont (0x80 + c % 0x40) = true := isCont_true_of_range (by omega) (by omega)
    simp [is_valid_cesu8, hb1, hw, hb2, hb3]

theorem is_valid_cesu8_char_high {c : Nat} (h : 0x10000 ≤ c) (hv : c < 0x110000) :
    is_valid_cesu8 (utf8EncodeChar c) = false := by
  unfold utf8EncodeChar
  split_ifs with h1 h2 h3
  · exact absurd h1 (by omega)
  · exact absurd h2 (by omega)
  · exact absurd h3 (by omega)
  · have hb1 : isCont (0xF0 + c / 0x40000) = false := isCont_false_of_ge (by omega) (by omega)
    have hw : utf8_char_width (0xF0 + c / 0x40000) > 3 := by
      rw [width_eq_four (by omega) (by omega)]; omega
    simp [is_valid_cesu8, hb1, hw]

/-- Claim C4: on the bytes of a valid Unicode string, `is_valid_cesu8` is
true exactly when every character needs at most 3 UTF-8 bytes, i.e. no
scalar value is at or above U+10000; no well-formed input is rejected for
any other reason. -/
theorem is_valid_cesu8_iff_no_supplementary (t : List Nat) (hv : ∀ c ∈ t, ValidScalar c) :
    (is_valid_cesu8 (utf8Encode t) = true ↔ ∀ c ∈ t, c < 0x10000) := by
  induction t with
  | nil => simp [utf8Encode, is_valid_cesu8]
  | cons c t ih =>
    have hvc : ValidScalar c := hv c (List.mem_cons_self c t)
    have iht := ih (fun x hx => hv x (List.mem_cons_of_mem c hx))
    simp only [utf8Encode]
    rw [is_valid_cesu8_append]
    by_cases hc : c < 0x10000
    · rw [is_valid_cesu8_char_low hc]
      simp [List.forall_mem_cons, hc, iht]
    · rw [is_valid_cesu8_char_high (by omega) hvc.1]
      simp [List.forall_mem_cons, hc]

/-- Witness for claim C4 at the string with scalar values U+0061, U+10437:
the second character needs 4 UTF-8 bytes, and the validator answers false. -/
theorem is_valid_cesu8_iff_no_supplementary_w :
    is_valid_cesu8 (utf8Encode [0x61, 0x10437]) = true ↔ ∀ c ∈ [0x61, 0x10437], c < 0x10000 :=
  is_valid_cesu8_iff_no_supplementary [0x61, 0x10437] (by decide)

/-! ### CESU-8 units and the decode loop (claims C7, C8) -/

theorem isUnit_cases {u : List Nat} (hu : isUnit u = true) :
    (∃ b, b < 0x80 ∧ u = [b]) ∨
    (∃ b c, 0xC2 ≤ b ∧ b ≤ 0xDF ∧ isCont c = true ∧ u = [b, c]) ∨
    (∃ a b c, threeByteValid a b = true ∧ isCont b = true ∧ isCont c = true ∧ u = [a, b, c]) ∨
    (∃ b c e f, 0xA0 ≤ b ∧ b ≤ 0xAF ∧ isCont c = true ∧ 0xB0 ≤ e ∧ e ≤ 0xBF ∧
      isCont f = true ∧ u = [0xED, b, c, 0xED, e, f]) := by
  match u, hu with
  | [b], hu =>
    left
    exact ⟨b, by simpa [isUnit] using hu, rfl⟩
  | [b, c], hu =>
    right; left
    simp only [isUnit, Bool.and_eq_true, decide_eq_true_eq] at hu
    exact ⟨b, c, hu.1.1, hu.1.2, hu.2, rfl⟩
  | [a, b, c], hu =>
    right; right; left
    simp only [isUnit, Bool.and_eq_true] at hu
    exact ⟨a, b, c, hu.1.1, hu.1.2, hu.2, rfl⟩
  | [a, b, c, d, e, f], hu =>
    right; right; right
    simp only [isUnit, Bool.and_eq_true, decide_eq_true_eq, beq_iff_eq] at hu
    obtain ⟨⟨⟨⟨⟨⟨⟨ha, hb1⟩, hb2⟩, hc⟩, hd⟩, he1⟩, he2⟩, hf⟩ := hu
    subst ha; subst hd
    exact ⟨b, c, e, f, hb1, hb2, hc, he1, he2, hf, rfl⟩
  | [], hu => simp [isUnit] at hu
  | [_, _, _, _], hu => simp [isUnit] at hu
  | [_, _, _, _, _], hu => simp [isUnit] at hu
  | _ :: _ :: _ :: _ :: _ :: _ :: _ :: _, hu => simp [isUnit] at hu

theorem decodeLoop_ascii_none {b : Nat} (h : b < 127) {r : List Nat}
    (hr : decodeLoop r = none) : decodeLoop (b :: r) = none := by
  rw [decodeLoop.eq_def]
  simp [h, hr]

theorem decodeLoop_two_none {b c : Nat} (hb1 : 0xC2 ≤ b) (hb2 : b ≤ 0xDF)
    (hc : isCont c = true) {r : List Nat} (hr : decodeLoop r = none) :
    decodeLoop (b :: c :: r) = none := by
  have hw : utf8_char_width b = 2 := width_eq_two (by omega) (by omega)
  rw [decodeLoop.eq_def]
  simp [hw, hc, hr]
  intro hlt
  exact absurd hlt (by omega)

theorem decodeLoop_three_none {a b c : Nat} (h3 : threeByteValid a b = true)
    (hb : isCont b = true) (hc : isCont c = true) {r : List Nat}
    (hr : decodeLoop r = none) : decodeLoop (a :: b :: c :: r) = none := by
  obtain ⟨ha1, ha2, hb1, hb2⟩ := threeByteValid_bounds h3
  have hw : utf8_char_width a = 3 := width_eq_three (by omega) (by omega)
  rw [decodeLoop.eq_def]
  simp [hw, h3, hb, hc, hr]
  intro hlt
  exact absurd hlt (by omega)

theorem decodeLoop_pair_none {b c e f : Nat} (hb1 : 0xA0 ≤ b) (hb2 : b ≤ 0xAF)
    (hc : isCont c = true) (he1 : 0xB0 ≤ e) (he2 : e ≤ 0xBF) (hf : isCont f = true)
    {r : List Nat} (hr : decodeLoop r = none) :
    decodeLoop (0xED :: b :: c :: 0xED :: e :: f :: r) = none := by
  have hw : utf8_char_width 0xED = 3 := by decide
  have hcb : isCont b = true := isCont_true_of_range (by omega) (by omega)
  have hce : isCont e = true := isCont_true_of_range (by omega) (by omega)
  have h3 : threeByteValid 0xED b = false := threeByteValid_surrogate_start hb1 hb2
  rw [decodeLoop.eq_def]
  simp [hw, hcb, hc, h3, hb1, hb2, hce, he1, he2, hf, hr]

theorem decodeLoop_two_trunc {b : Nat} (hb1 : 0xC2 ≤ b) (hb2 : b ≤ 0xDF) :
    decodeLoop [b] = none := by
  have hw : utf8_char_width b = 2 := width_eq_two (by omega) (by omega)
  rw [decodeLoop.eq_def]
  simp [hw]
  intro hlt
  exact absurd hlt (by omega)

theorem decodeLoop_three_trunc {a b : Nat} (h3 : threeByteValid a b = true) :
    decodeLoop [a, b] = none := by
  obtain ⟨ha1, ha2, hb1, hb2⟩ := threeByteValid_bounds h3
  have hw : utf8_char_width a = 3 := width_eq_three (by omega) (by omega)
  rw [decodeLoop.eq_def]
  simp [hw]
  intro hlt
  exact absurd hlt (by omega)

theorem decodeLoop_pair_trunc {b c e : Nat} (hb1 : 0xA0 ≤ b) (hb2 : b ≤ 0xAF)
    (hc : isCont c = true) (he1 : 0xB0 ≤ e) (he2 : e ≤ 0xBF) :
    decodeLoop [0xED, b, c, 0xED, e] = none := by
  have hw : utf8_char_width 0xED = 3 := by decide
  have hcb : isCont b = true := isCont_true_of_range (by omega) (by omega)
  have h3 : threeByteValid 0xED b = false := threeByteValid_surrogate_start hb1 hb2
  rw [decodeLoop.eq_def]
  simp [hw, hcb, hc, h3, hb1, hb2]

theorem utf8Valid_ascii (b : Nat) (h : b < 0x80) (r : List Nat) :
    utf8Valid (b :: r) = utf8Valid r := by
  rw [utf8Valid.eq_def]
  simp [h]

theorem utf8Valid_two (b c : Nat) (hb1 : 0xC2 ≤ b) (hb2 : b ≤ 0xDF)
    (hc : isCont c = true) (r : List Nat) : utf8Valid (b :: c :: r) = utf8Valid r := by
  rw [utf8Valid.eq_def]
  simp [hb1, hb2, hc, (show ¬ b < 0x80 by omega)]

theorem utf8Valid_three (a b c : Nat) (h3 : threeByteValid a b = true)
    (hc : isCont c = true) (r : List Nat) : utf8Valid (a :: b :: c :: r) = utf8Valid r := by
  obtain ⟨ha1, ha2, hb1, hb2⟩ := threeByteValid_bounds h3
  rw [utf8Valid.eq_def]
  simp [h3, hc, ha1, ha2, (show ¬ a < 0x80 by omega), (show ¬ a ≤ 0xDF by omega)]

theorem utf8Valid_pair_start (b : Nat) (hb1 : 0xA0 ≤ b) (hb2 : b ≤ 0xAF)
    (r : List Nat) : utf8Valid (0xED :: b :: r) = false := by
  have h3 : threeByteValid 0xED b = false := threeByteValid_surrogate_start hb1 hb2
  rw [utf8Valid.eq_def]
  cases r with
  | nil => simp
  | cons d r2 => simp [h3]

theorem utf8Valid_dropLast_none (us : List (List Nat)) (u : List Nat)
    (h1 : ∀ v ∈ us, isUnit v = true) (h2 : isUnit u = true) (h3 : 2 ≤ u.length)
    (h4 : utf8Valid (joinUnits us ++ u) = false) :
    utf8Valid ((joinUnits us ++ u).dropLast) = false := by
  induction us with
  | nil =>
    simp only [joinUnits, List.nil_append] at h4 ⊢
    rcases isUnit_cases h2 with ⟨b, hb, rfl⟩ | ⟨b, c, hb1, hb2, hc, rfl⟩ |
      ⟨a, b, c, h3v, hb, hc, rfl⟩ | ⟨b, c, e, f, hb1, hb2, hc, he1, he2, hf, rfl⟩
    · simp at h3
    · rw [utf8Valid_two b c hb1 hb2 hc []] at h4
      simp [utf8Valid] at h4
    · rw [utf8Valid_three a b c h3v hc []] at h4
      simp [utf8Valid] at h4
    · show utf8Valid [0xED, b, c, 0xED, e] = false
      exact utf8Valid_pair_start b hb1 hb2 [c, 0xED, e]
  | cons v us ih =>
    have hu0 : u ≠ [] := by intro hh; rw [hh] at h3; simp at h3
    have hne : joinUnits us ++ u ≠ [] := fun hh => hu0 (List.append_eq_nil.mp hh).2
    have hv : isUnit v = true := h1 v (List.mem_cons_self v us)
    have h1t : ∀ w ∈ us, isUnit w = true := fun w hw => h1 w (List.mem_cons_of_mem v hw)
    have hjoin : joinUnits (v :: us) ++ u = v ++ (joinUnits us ++ u) := by
      simp [joinUnits, List.append_assoc]
    rw [hjoin] at h4 ⊢
    rw [List.dropLast_append_of_ne_nil _ hne]
    rcases isUnit_cases hv with ⟨b, hb, rfl⟩ | ⟨b, c, hb1, hb2, hc, rfl⟩ |
      ⟨a, b, c, h3v, hbb, hc, rfl⟩ | ⟨b, c, e, f, hb1, hb2, hc, he1, he2, hf, rfl⟩
    · rw [List.cons_append] at h4 ⊢
      rw [utf8Valid_ascii b hb] at h4 ⊢
      exact ih h1t h4
    · rw [List.cons_append, List.cons_append, List.nil_append] at h4 ⊢
      rw [utf8Valid_two b c hb1 hb2 hc] at h4 ⊢
      exact ih h1t h4
    · rw [List.cons_append, List.cons_append, List.cons_append, List.nil_append] at h4 ⊢
      rw [utf8Valid_three a b c h3v hc] at h4 ⊢
      exact ih h1t h4
    · rw [List.cons_append, List.cons_append]
      exact utf8Valid_pair_start b hb1 hb2 _

theorem decodeLoop_dropLast_units (us : List (List Nat)) (u : List Nat)
    (h1 : ∀ v ∈ us, isUnit v = true) (h2 : isUnit u = true) (h3 : 2 ≤ u.length) :
    decodeLoop ((joinUnits us ++ u).dropLast) = none := by
  induction us with
  | nil =>
    simp only [joinUnits, List.nil_append]
    rcases isUnit_cases h2 with ⟨b, hb, rfl⟩ | ⟨b, c, hb1, hb2, hc, rfl⟩ |
      ⟨a, b, c, h3v, hb, hc, rfl⟩ | ⟨b, c, e, f, hb1, hb2, hc, he1, he2, hf, rfl⟩
    · simp at h3
    · exact decodeLoop_two_trunc hb1 hb2
    · exact decodeLoop_three_trunc h3v
    · exact decodeLoop_pair_trunc hb1 hb2 hc he1 he2
  | cons v us ih =>
    have hu0 : u ≠ [] := by intro hh; rw [hh] at h3; simp at h3
    have hne : joinUnits us ++ u ≠ [] := fun hh => hu0 (List.append_eq_nil.mp hh).2
    have hv : isUnit v = true := h1 v (List.mem_cons_self v us)
    have h1t : ∀ w ∈ us, isUnit w = true := fun w hw => h1 w (List.mem_cons_of_mem v hw)
    have hjoin : joinUnits (v :: us) ++ u = v ++ (joinUnits us ++ u) := by
      simp [joinUnits, List.append_assoc]
    rw [hjoin, List.dropLast_append_of_ne_nil _ hne]
    rcases isUnit_cases hv with ⟨b, hb, rfl⟩ | ⟨b, c, hb1, hb2, hc, rfl⟩ |
      ⟨a, b, c, h3v, hbb, hc, rfl⟩ | ⟨b, c, e, f, hb1, hb2, hc, he1, he2, hf, rfl⟩
    · rw [List.cons_append]
      by_cases hlt : b < 127
      · exact decodeLoop_ascii_none hlt (ih h1t)
      · have : b = 127 := by omega
        subst this
        exact decodeLoop_127_cons _
    · rw [List.cons_append, List.cons_append, List.nil_append]
      exact decodeLoop_two_none hb1 hb2 hc (ih h1t)
    · rw [List.cons_append, List.cons_append, List.cons_append, List.nil_append]
      exact decodeLoop_three_none h3v hbb hc (ih h1t)
    · rw [List.cons_append, List.cons_append, List.cons_append, List.cons_append,
        List.cons_append, List.cons_append, List.nil_append]
      exact decodeLoop_pair_none hb1 hb2 hc he1 he2 hf (ih h1t)

/-- Claim C7: take any valid CESU-8 byte string (a concatenation of units
`us ++ [u]`, the last unit `u` a multi-byte or surrogate-pair sequence) that
is not valid UTF-8.  Removing its final byte makes `from_cesu8` fail. -/
theorem from_cesu8_rejects_truncation (us : List (List Nat)) (u : List Nat)
    (h1 : ∀ v ∈ us, isUnit v = true) (h2 : isUnit u = true) (h3 : 2 ≤ u.length)
    (h4 : utf8Valid (joinUnits us ++ u) = false) :
    from_cesu8 ((joinUnits us ++ u).dropLast) = none := by
  have hu8 := utf8Valid_dropLast_none us u h1 h2 h3 h4
  have hdl := decodeLoop_dropLast_units us u h1 h2 h3
  simp [from_cesu8, hu8, hdl]

/-- Witness for claim C7: the surrogate pair for U+10401 with its final byte
removed is rejected. -/
theorem from_cesu8_rejects_truncation_w :
    from_cesu8 [0xED, 0xA0, 0x81, 0xED, 0xB0] = none :=
  from_cesu8_rejects_truncation [] [0xED, 0xA0, 0x81, 0xED, 0xB0, 0x81] (by simp)
    (by decide) (by decide) (by decide)

/-- Claim C8: once the slow decode path has read a first-half surrogate
sequence (leading byte 0xED, second byte in 0xA0..0xAF, valid continuation
third byte), decoding fails unless the next three bytes are exactly a valid
second-half surrogate sequence; in particular `from_cesu8 [0xED, 0xA0, 0x81]`
fails. -/
theorem from_cesu8_requires_second_half (s t : Nat) (rest : List Nat)
    (h1 : 0xA0 ≤ s) (h2 : s ≤ 0xAF) (h3 : isCont t = true)
    (h4 : secondHalfOk rest = false) :
    decodeLoop (0xED :: s :: t :: rest) = none ∧ from_cesu8 [0xED, 0xA0, 0x81] = none := by
  refine ⟨?_, by decide⟩
  have hw : utf8_char_width 0xED = 3 := by decide
  have hcs : isCont s = true := isCont_true_of_range (by omega) (by omega)
  have h3v : threeByteValid 0xED s = false := threeByteValid_surrogate_start h1 h2
  rw [decodeLoop.eq_def]
  simp only [hw]
  cases rest with
  | nil => simp [hcs, h3, h3v, h1, h2]
  | cons f r1 =>
    cases r1 with
    | nil => simp [hcs, h3, h3v, h1, h2]
    | cons g r2 =>
      cases r2 with
      | nil => simp [hcs, h3, h3v, h1, h2]
      | cons x r3 =>
        simp only [secondHalfOk, Bool.and_eq_false_iff] at h4
        by_cases hf : f = 0xED
        · subst hf
          by_cases hg1 : 0xB0 ≤ g
          · by_cases hg2 : g ≤ 0xBF
            · have hx : isCont x = false := by
                simp [hg1, hg2] at h4
                exact h4
              simp [hcs, h3, h3v, h1, h2, hx]
            · simp [hcs, h3, h3v, h1, h2, hg2]
          · simp [hcs, h3, h3v, h1, h2, hg1]
        · simp [hcs, h3, h3v, h1, h2, hf]

/-- Witness for claim C8: a lone first-half surrogate sequence
`[0xED, 0xA0, 0x80]` (empty tail) is rejected. -/
theorem from_cesu8_requires_second_half_w :
    decodeLoop [0xED, 0xA0, 0x80] = none ∧ from_cesu8 [0xED, 0xA0, 0x81] = none :=
  from_cesu8_requires_second_half 0xA0 0x80 [] (by decide) (by decide) (by decide)
    (by decide)

